import Mathlib

/-!
Verification development for the FBF-TF multi-subgraph partitioned-execution
scheduler and cross-subgraph tensor hand-off protocol.

The definitions below are shallow embeddings of the C++ source:
- tensorflow/lite/workframe.h   (Subgraph: AllocateTensors, ResizeInputTensor,
  Invoke cancellation check, ModifyGraphWithDelegate, UndoAllDelegates,
  ConcatContext, GPUPopContextFromQueue, CPUPopContextFromQueue,
  GetFirstOpName, SwitchTensor)
- the interpreter source file   (Interpreter::Invoke with its connect and
  connectAdd lambdas)

Machine integers of the C code are modelled as Int (the values involved are
channel counts, byte sizes and tensor indices, far from overflow), byte
buffers as functions from offsets to abstract words, and the tensor stores of
a subgraph as lists of tensor records carrying the identity (ptr) of the data
buffer they point to.
-/

namespace FBF

/-- Status results of the TfLite C API, restricted to the constructors the
embedded operations produce: kTfLiteOk, kTfLiteError, kTfLiteDelegateError
and kTfLiteApplicationError. -/
inductive TfLiteStatusM
  | ok
  | error
  | delegateError
  | applicationError
deriving DecidableEq

/-- Subgraph state machine values kStateUninvokable, kStateInvokable and
kStateInvokableAndImmutable from workframe.h. -/
inductive SubgraphStateM
  | uninvokable
  | invokable
  | invokableAndImmutable
deriving DecidableEq

/-- Compute unit tags UnitType::CPU0 and UnitType::GPU0. -/
inductive UnitTypeM
  | cpu0
  | gpu0
deriving DecidableEq

/-- A tensor record as seen by the hand-off code: the identity of the data
buffer it points to (data.data) and its byte size (bytes). -/
structure TensorRef where
  ptr : Nat
  bytes : Nat
deriving DecidableEq

/-- SharedContext from workframe.h: the producing unit tag and the pointer to
the producing subgraph tensor. -/
structure SharedContextM where
  eType : UnitTypeM
  tensor : TensorRef
deriving DecidableEq

/-- TensorAndIndex from the interpreter source: a recorded (used) output
tensor together with its tensor index. -/
structure TensorAndIndex where
  idx : Nat
  tensor : TensorRef
deriving DecidableEq

/-- Byte memory: buffer identity, then byte offset, to the stored word. -/
def HeapM : Type := Nat → Nat → Int

/-- memcpy(dst, src, len) between whole buffers: after the call the first len
bytes of the destination buffer hold the source buffer bytes; everything else
is unchanged. Reads are from the pre-state, as for non-overlapping memcpy. -/
def memcpyHeap (h : HeapM) (dstPtr srcPtr len : Nat) : HeapM :=
  fun p i => if p = dstPtr ∧ i < len then h srcPtr i else h p i

/-- The connect lambda of Interpreter::Invoke (default bridge path): compares
source and destination byte sizes, fails on mismatch without copying,
otherwise memcpy the whole source tensor into the destination tensor buffer
and record the source tensor and index on the used list. -/
def connect (h : HeapM) (sourceTensor destTensor : TensorRef) (sourceIdx : Nat)
    (used : List TensorAndIndex) : TfLiteStatusM × HeapM × List TensorAndIndex :=
  if sourceTensor.bytes ≠ destTensor.bytes then (.error, h, used)
  else (.ok, memcpyHeap h destTensor.ptr sourceTensor.ptr sourceTensor.bytes,
        used ++ [⟨sourceIdx, sourceTensor⟩])

/-- Subgraph::CPUPopContextFromQueue: on an empty queue report an error;
otherwise assign the data pointer of the front SharedContext tensor into the
output tensor of the given node (a pointer assignment, not a byte copy) and
pop the queue. -/
def CPUPopContextFromQueue (q : List SharedContextM) (tensors : List TensorRef)
    (outputTensorIndex : Nat) :
    TfLiteStatusM × List TensorRef × List SharedContextM :=
  match q with
  | [] => (.error, tensors, [])
  | sc :: rest =>
    (.ok,
     tensors.set outputTensorIndex
       { tensors.getD outputTensorIndex ⟨0, 0⟩ with ptr := sc.tensor.ptr },
     rest)

/-- Subgraph::GPUPopContextFromQueue: the C++ function prints QUEUE ERROR on
an empty queue (the exit call is commented out) and then still calls front()
and pop() on the empty std::queue, which is undefined behaviour; it has no
error status in its return type. The embedding returns none for that
undefined outcome and otherwise the front element and the popped queue. -/
def GPUPopContextFromQueue (q : List SharedContextM) :
    Option (SharedContextM × List SharedContextM) :=
  match q with
  | [] => none
  | sc :: rest => some (sc, rest)

/-- Product of a dims array, as ConcatContext and BytesRequired compute it. -/
def intProd (l : List Int) : Int :=
  l.foldl (fun a b => a * b) 1

/-- One memcpy of the ConcatContext merge loop, on float-indexed data:
writes len words of src starting at source offset soff into dst starting at
destination offset doff. -/
def memcpyFloats (dst : Int → Int) (doff : Int) (src : Int → Int)
    (soff : Int) (len : Int) : Int → Int :=
  fun i => if doff ≤ i ∧ i < doff + len then src (soff + (i - doff)) else dst i

/-- The merge loop of Subgraph::ConcatContext: for n = 0 .. per-1 it performs
memcpy(data_recieve + ch_st + n*ch_size, data_send + n*sd_ch, sd_ch words).
The recursion applies iteration n on top of iterations 0 .. n-1, which is the
sequential order of the C++ loop. -/
def concatCopyLoop (src : Int → Int) (chSt chSize sdCh : Int) :
    Nat → (Int → Int) → (Int → Int)
  | 0, dst => dst
  | n + 1, dst =>
    memcpyFloats (concatCopyLoop src chSt chSize sdCh n dst)
      (chSt + n * chSize) src (n * sdCh) sdCh

/-- Subgraph::ConcatContext, data part. Arguments: the dims and data of the
receiving tensor rc_tensor, the dims and data of the sending tensor
sd_tensor (the popped SharedContext tensor), and concatFilter, standing for
tensor(concat node input 1).dims data 3 (concat_tensor_filter). Following
the source: tensor_rc_ch_size = rc last dim - concat_tensor_filter;
tensor_sd_ch_size = sd last dim; tensor_data_size = product of rc dims;
ch_size = tensor_rc_ch_size + concat_tensor_filter; ch_st =
tensor_rc_ch_size; tensor_data_per_ch = tensor_data_size / ch_size; then the
strided memcpy loop. The queue re-push chaining of the source is not part of
the byte-layout result and is modelled with the queue operations above. -/
def ConcatContext (rcDims : List Int) (rcData : Int → Int) (sdDims : List Int)
    (sdData : Int → Int) (concatFilter : Int) : Int → Int :=
  concatCopyLoop sdData
    (rcDims.getD (rcDims.length - 1) 0 - concatFilter)
    ((rcDims.getD (rcDims.length - 1) 0 - concatFilter) + concatFilter)
    (sdDims.getD (sdDims.length - 1) 0)
    ((intProd rcDims /
      ((rcDims.getD (rcDims.length - 1) 0 - concatFilter) + concatFilter)).toNat)
    rcData

/-- Subgraph state relevant to delegate application and rollback:
nodes_and_registration_ (as a list of opaque node tags), execution_plan_,
pre_delegation_execution_plan_, the delegates_applied_ count, the
delegates_undone_ flag and the state machine value. -/
structure DelegSubgraph where
  nodes : List Nat
  executionPlan : List Nat
  preDelegationPlan : List Nat
  delegatesApplied : Nat
  delegatesUndone : Bool
  state : SubgraphStateM
deriving DecidableEq

/-- max_retained_node_index of Subgraph::UndoAllDelegates: fold of max over
the execution plan, starting from 0. -/
def maxNodeIndex (plan : List Nat) : Nat :=
  plan.foldl max 0

/-- One subset step of Subgraph::ReplaceNodeSubsetsWithDelegateKernels: a
subset claimed by the delegate (kTfPartition) appends one fused delegate node
to nodes_and_registration_ (AddNodeWithParameters) and pushes its index onto
the rebuilt execution plan; an unclaimed subset (kTfNonPartition) pushes its
node indices back onto the plan. -/
def applySubset (sg : DelegSubgraph) (claimed : Bool) (subsetNodes : List Nat) :
    DelegSubgraph :=
  if claimed then
    { sg with nodes := sg.nodes ++ [sg.nodes.length],
              executionPlan := sg.executionPlan ++ [sg.nodes.length] }
  else { sg with executionPlan := sg.executionPlan ++ subsetNodes }

/-- The subset loop of ReplaceNodeSubsetsWithDelegateKernels, driven by the
delegate Prepare callback: processes the independent node subsets in order;
failAt gives the subset position at which the delegate fails (as counted from
the current position), leaving the mutations of the already processed subsets
in place, which is the partial-failure situation the rollback must undo. -/
def replaceNodeSubsets :
    DelegSubgraph → List (Bool × List Nat) → Option Nat →
    TfLiteStatusM × DelegSubgraph
  | sg, [], _ => (.ok, sg)
  | sg, s :: rest, failAt =>
    if failAt = some 0 then (.error, sg)
    else replaceNodeSubsets (applySubset sg s.1 s.2) rest
      (Option.map (fun k => k - 1) failAt)

/-- Subgraph::UndoAllDelegates: returns early when no pre-delegation plan was
saved; otherwise restores execution_plan_ from pre_delegation_execution_plan_,
clears the saved plan, truncates nodes_and_registration_ to
max_retained_node_index + 1 (delegate nodes were appended at the end), marks
the graph uninvokable and sets delegates_undone_. The fp16 input remapping
passes of the source are identity when no Float16 tensors are present and are
not modelled. -/
def UndoAllDelegates (sg : DelegSubgraph) : DelegSubgraph :=
  if sg.preDelegationPlan = [] then sg
  else
    { sg with executionPlan := sg.preDelegationPlan,
              preDelegationPlan := [],
              nodes := sg.nodes.take (maxNodeIndex sg.preDelegationPlan + 1),
              state := .uninvokable,
              delegatesUndone := true }

/-- Subgraph::RemoveAllDelegates: UndoAllDelegates, clear delegates_applied_,
clear delegates_undone_, then EnsureMemoryAllocations (modelled as
succeeding, leaving the graph invokable). -/
def RemoveAllDelegates (sg : DelegSubgraph) : DelegSubgraph :=
  let sg1 := UndoAllDelegates sg
  { sg1 with delegatesApplied := 0, delegatesUndone := false,
             state := .invokable }

/-- A delegate for the rollback claim: the independent node subsets its
Prepare processes (claimed flag and node indices per subset) and the subset
position at which Prepare fails, none meaning Prepare succeeds. -/
structure DelegateM where
  subsets : List (Bool × List Nat)
  failAt : Option Nat

/-- The subgraph state handed to the delegate Prepare inside
ModifyGraphWithDelegate: the static path marks the graph invokable,
pre_delegation_execution_plan_ is saved from execution_plan_ when this is
the first applied delegate, and ReplaceNodeSubsetsWithDelegateKernels clears
execution_plan_ before rebuilding it subset by subset. -/
def delegPrepareInput (sg : DelegSubgraph) : DelegSubgraph :=
  { sg with state := .invokable,
            executionPlan := [],
            preDelegationPlan :=
              if sg.delegatesApplied = 0 then sg.executionPlan
              else sg.preDelegationPlan }

/-- Subgraph::ModifyGraphWithDelegate for a delegate that does not allow
dynamic tensors (the static path of the source): reject an immutable graph;
save pre_delegation_execution_plan_ when this is the first delegate; run the
delegate Prepare (the subset replacement loop); on Prepare failure or on a
failure of the subsequent EnsureMemoryAllocations (allocOk = false), roll
back through RemoveAllDelegates and report kTfLiteDelegateError; on success
the graph becomes invokable-and-immutable. PrepareOpsStartingAt is assumed to
succeed with no dynamic tensors, as in the scenarios of the claim. -/
def ModifyGraphWithDelegate (sg : DelegSubgraph) (d : DelegateM)
    (allocOk : Bool) : TfLiteStatusM × DelegSubgraph :=
  if sg.state = .invokableAndImmutable then (.applicationError, sg)
  else if (replaceNodeSubsets (delegPrepareInput sg) d.subsets d.failAt).1 = .ok then
    if allocOk then
      (.ok, { (replaceNodeSubsets (delegPrepareInput sg) d.subsets d.failAt).2 with
              state := .invokableAndImmutable,
              delegatesApplied :=
                (replaceNodeSubsets (delegPrepareInput sg) d.subsets d.failAt).2.delegatesApplied + 1 })
    else
      (.delegateError,
       RemoveAllDelegates (replaceNodeSubsets (delegPrepareInput sg) d.subsets d.failAt).2)
  else
    (.delegateError,
     RemoveAllDelegates (replaceNodeSubsets (delegPrepareInput sg) d.subsets d.failAt).2)

/-- Subgraph fields read by the Invoke entry checks: consistent_ and the
state machine value. -/
structure InvokeSubgraphState where
  consistent : Bool
  state : SubgraphStateM
deriving DecidableEq

/-- Result of Subgraph::Invoke: the returned status, the subgraph state after
the call, and the nodes whose kernels were invoked (OpInvoke calls), in
order. -/
structure InvokeOutcome where
  status : TfLiteStatusM
  final : InvokeSubgraphState
  invokedNodes : List Nat
deriving DecidableEq

/-- The per-node loop of Subgraph::Invoke, reduced to the cancellation
behaviour: at each execution plan index the externally installed
check_cancelled_func_ is consulted once (checkCancelled planIndex models its
value at that moment); if it fires the loop returns kTfLiteError immediately,
before invoking the kernel of that node; otherwise the kernel runs and the
loop continues. -/
def invokeLoop (checkCancelled : Nat → Bool) :
    List Nat → Nat → List Nat → TfLiteStatusM × List Nat
  | [], _, invoked => (.ok, invoked)
  | node :: rest, planIndex, invoked =>
    if checkCancelled planIndex then (.error, invoked)
    else invokeLoop checkCancelled rest (planIndex + 1) (invoked ++ [node])

/-- Subgraph::Invoke entry and loop: error on an inconsistent model, error
when the state is kStateUninvokable, otherwise run the node loop. The source
returns from the cancellation branch without touching state_, so the final
state equals the entry state. -/
def Invoke (sg : InvokeSubgraphState) (checkCancelled : Nat → Bool)
    (executionPlan : List Nat) : InvokeOutcome :=
  if ¬sg.consistent then ⟨.error, sg, []⟩
  else if sg.state = .uninvokable then ⟨.error, sg, []⟩
  else
    let r := invokeLoop checkCancelled executionPlan 0 []
    ⟨r.1, sg, r.2⟩

/-- Subgraph fields read by AllocateTensors: consistent_, the state machine
value, HasDynamicTensorImpl over inputs(), the presence of a memory planner
and of its non-persistent memory, and a counter of how many times the
planner was reset and PrepareOpsAndTensors re-run (planCount, the
observable for re-planning). The delegate redo path is omitted; the theorems
concern states where no delegates were undone, for which RedoAllDelegates
returns immediately. -/
structure AllocSubgraph where
  consistent : Bool
  state : SubgraphStateM
  dynamicInputs : Bool
  hasMemoryPlanner : Bool
  hasNonPersistentMemory : Bool
  planCount : Nat
deriving DecidableEq

/-- Subgraph::AllocateTensors: error on an inconsistent model; if the state
is not kStateUninvokable and no input tensor is dynamic, short-circuit,
re-acquiring non-persistent memory only when it was released; otherwise reset
the planner allocations, re-run PrepareOpsAndTensors (planCount increments)
and mark the subgraph invokable. -/
def AllocateTensors (sg : AllocSubgraph) : TfLiteStatusM × AllocSubgraph :=
  if ¬sg.consistent then (.error, sg)
  else if sg.state ≠ .uninvokable ∧ ¬sg.dynamicInputs then
    if sg.hasMemoryPlanner ∧ ¬sg.hasNonPersistentMemory then
      (.ok, { sg with hasNonPersistentMemory := true })
    else (.ok, sg)
  else
    (.ok, { sg with planCount := sg.planCount + 1, state := .invokable,
                    hasMemoryPlanner := true,
                    hasNonPersistentMemory := true })

/-- Tensor allocation classes of TfLiteAllocationType. -/
inductive AllocTypeM
  | mmapRo
  | arenaRw
  | arenaRwPersistent
  | dynamic
  | persistentRo
  | custom
deriving DecidableEq

/-- A tensor record as seen by ResizeInputTensor: dims, element type size,
byte size, whether data.raw is non-null, and the allocation class. -/
structure RsTensor where
  dims : List Int
  typeSize : Nat
  bytes : Nat
  dataRaw : Bool
  allocType : AllocTypeM
deriving DecidableEq

/-- Subgraph::ResizeTensorImpl: kTfLiteMmapRo tensors cannot be resized; for
the resizable classes the dims are replaced, bytes recomputed from the new
element count, and arena tensors get their data pointer reset to null so the
planner re-allocates them. -/
def ResizeTensorImpl (t : RsTensor) (newSize : List Int) : Option RsTensor :=
  if t.allocType = .mmapRo then none
  else
    some { t with
      dims := newSize,
      bytes := t.typeSize * (intProd newSize).toNat,
      dataRaw :=
        if t.allocType = .arenaRw ∨ t.allocType = .arenaRwPersistent then false
        else t.dataRaw }

/-- Subgraph state relevant to ResizeInputTensor: the tensor store, the state
machine value and pre_delegation_execution_plan_ (whose non-emptiness is the
delegates_applied test of the source). -/
structure RsSubgraph where
  tensors : List RsTensor
  state : SubgraphStateM
  preDelegationPlan : List Nat
deriving DecidableEq

/-- Subgraph::ResizeInputTensor: reject an immutable graph without applied
delegates; bounds-check the tensor index; if the tensor data pointer is
non-null and the dims are unchanged, return ok with no state transition and
no reallocation (the fast path); otherwise undo delegates when the graph was
immutable, force the state to kStateUninvokable and resize the tensor. -/
def ResizeInputTensor (sg : RsSubgraph) (tensorIndex : Nat) (dims : List Int) :
    TfLiteStatusM × RsSubgraph :=
  if sg.state = .invokableAndImmutable ∧ sg.preDelegationPlan = [] then
    (.error, sg)
  else if hidx : tensorIndex < sg.tensors.length then
    let t := sg.tensors.get ⟨tensorIndex, hidx⟩
    if t.dataRaw ∧ t.dims = dims then (.ok, sg)
    else
      let sg1 :=
        if sg.state = .invokableAndImmutable then
          { sg with preDelegationPlan := [] }
        else sg
      match ResizeTensorImpl t dims with
      | none => (.error, { sg1 with state := .uninvokable })
      | some t2 =>
        (.ok, { sg1 with state := .uninvokable,
                         tensors := sg1.tensors.set tensorIndex t2 })
  else (.error, sg)

/-- Operator kinds distinguished by the channel-ratio rewrite loop of
ModifyGraphWithDelegate: CONV_2D, CONCATENATION, and everything else. -/
inductive RwOp
  | conv
  | concat
  | other
deriving DecidableEq

/-- A node as seen by the channel-ratio rewrite: its operator kind and the
channel dimension of its filter tensor (dims data 0 of the conv filter,
dims data 3 of the concat filter). -/
structure RwNode where
  op : RwOp
  filterChannels : Int
deriving DecidableEq

/-- Round to nearest, ties to even, of a rational onto the integers: the
rounding used at the last mantissa bit of an IEEE binary operation. -/
def rne (q : ℚ) : ℤ :=
  if q - ⌊q⌋ < 1 / 2 then ⌊q⌋
  else if 1 / 2 < q - ⌊q⌋ then ⌊q⌋ + 1
  else if Even ⌊q⌋ then ⌊q⌋ else ⌊q⌋ + 1

/-- The exact rational value of a real rounded to the nearest IEEE
single-precision float (round to nearest, ties to even): the mantissa grid
at exponent e = Int.log 2 of the magnitude has spacing 2 ^ (e - 23). The
model covers the normal range; it does not flush subnormals or overflow to
infinity, which is sound for the channel counts these computations see. -/
def roundFloat32 (x : ℚ) : ℚ :=
  if 0 < x then
    rne (x / 2 ^ (Int.log 2 x - 23)) * 2 ^ (Int.log 2 x - 23)
  else if x < 0 then
    -(rne (-x / 2 ^ (Int.log 2 (-x) - 23)) * 2 ^ (Int.log 2 (-x) - 23))
  else 0

/-- Conversion of a C int to float, which rounds once the magnitude exceeds
2 ^ 24 (exact below that). -/
def floatOfInt (n : Int) : ℚ := roundFloat32 (n : ℚ)

/-- The modified channel count of the rewrite, the C expression
ceil(channels * ((float)ratio / 10)): ratio is converted to float and
divided by 10 in single precision, the int channel count is converted to
float and the product is taken in single precision, and ceil (computed in
double, exactly, since the float argument is exact in double) yields the
int result. This single-precision evaluation can exceed the exact ceiling
of channels * ratio / 10, for example at channels = 50, ratio = 3. -/
def modifiedChannelValue (channels ratio : Int) : Int :=
  ⌈roundFloat32 (floatOfInt channels * roundFloat32 (floatOfInt ratio / 10))⌉

/-- The channel-ratio rewrite loop of ModifyGraphWithDelegate (co-execution
path): every CONV_2D filter channel dimension is shrunk to
modifiedChannelValue and the original count is carried in
conv_filter_before_modification; every CONCATENATION errors out when no conv
came before (carry not positive) and otherwise grows its filter last
dimension by the complementary count carry - modifiedChannelValue carry.
The carry starts at 0 before any conv was seen. -/
def channelRatioRewrite (ratio : Int) :
    List RwNode → Int → Option (List RwNode)
  | [], _ => some []
  | node :: rest, carry =>
    match node.op with
    | .conv =>
      (channelRatioRewrite ratio rest node.filterChannels).map
        (fun tail =>
          { op := RwOp.conv,
            filterChannels := modifiedChannelValue node.filterChannels ratio } :: tail)
    | .concat =>
      if carry ≤ 0 then none
      else
        (channelRatioRewrite ratio rest carry).map
          (fun tail =>
            { op := RwOp.concat,
              filterChannels := node.filterChannels +
                (carry - modifiedChannelValue carry ratio) } :: tail)
    | .other =>
      (channelRatioRewrite ratio rest carry).map (fun tail => node :: tail)

/-- Subgraph::GetFirstOpName: NO_OP when the subgraph has no nodes, else the
op name of node 0. -/
def GetFirstOpName (ops : List String) : String :=
  match ops with
  | [] => "NO_OP"
  | op :: _ => op

/-- The two bridge paths of the Interpreter::Invoke connection loop. -/
inductive BridgePath
  | defaultConnect
  | addConnect
deriving DecidableEq

/-- The bridge path selection of Interpreter::Invoke: connectAdd exactly when
the first operator of the destination subgraph is ADD, the default connect
otherwise. -/
def chooseBridgePath (destOps : List String) : BridgePath :=
  if GetFirstOpName destOps = "ADD" then .addConnect else .defaultConnect

/-- Subgraph::SwitchTensor: overwrite the tensor record at the given index of
the destination tensor store with the given tensor (a struct assignment,
carrying the data pointer of the source). -/
def SwitchTensor (tensors : List TensorRef) (t : TensorRef) (idx : Nat) :
    List TensorRef :=
  tensors.set idx t

/-- The inner loop of the connectAdd lambda for one destination input index:
for every recorded used tensor whose index matches, SwitchTensor installs the
used tensor record into the destination store at that index and the
subsequent memcpy copies its bytes onto the tensor now installed there
(which, after the switch, is the same buffer). -/
def connectAddInner (inp : Nat) :
    List TensorAndIndex → (List TensorRef × HeapM) → List TensorRef × HeapM
  | [], acc => acc
  | u :: rest, acc =>
    if u.idx = inp then
      let ts := SwitchTensor acc.1 u.tensor inp
      connectAddInner inp rest
        (ts, memcpyHeap acc.2 (ts.getD inp ⟨0, 0⟩).ptr u.tensor.ptr u.tensor.bytes)
    else connectAddInner inp rest acc

/-- The outer loop of the connectAdd lambda over the destination input
indices. -/
def connectAddOuter (used : List TensorAndIndex) :
    List Nat → (List TensorRef × HeapM) → List TensorRef × HeapM
  | [], acc => acc
  | inp :: rest, acc => connectAddOuter used rest (connectAddInner inp used acc)

/-- The connectAdd lambda of Interpreter::Invoke (additive-merge path):
requires at least two destination inputs and at least two recorded used
tensors, failing otherwise before touching anything; then runs the nested
loops over inputs and used tensors. -/
def connectAdd (destTensors : List TensorRef) (h : HeapM) (inputs : List Nat)
    (used : List TensorAndIndex) : TfLiteStatusM × List TensorRef × HeapM :=
  if inputs.length < 2 ∨ used.length < 2 then (.error, destTensors, h)
  else
    let r := connectAddOuter used inputs (destTensors, h)
    (.ok, r.1, r.2)

end FBF

namespace FBF

lemma getD_set_self (l : List TensorRef) (a : TensorRef) (i : Nat)
    (h : i < l.length) : (l.set i a).getD i ⟨0, 0⟩ = a := by
  simp [List.getD_eq_getElem?_getD, List.getElem?_set_eq_of_lt a h]

lemma getD_set_ne (l : List TensorRef) (a : TensorRef) (i j : Nat)
    (h : i ≠ j) : (l.set i a).getD j ⟨0, 0⟩ = l.getD j ⟨0, 0⟩ := by
  simp [List.getD_eq_getElem?_getD, List.getElem?_set_ne h]

/-- C3: a pop attempted on an empty Shared-Context Queue. The CPU-side
continuation pop does fail with an error status, but the GPU-side merge pop
has no error signalling at all: on the empty queue the source prints QUEUE
ERROR and then calls front and pop on the empty std::queue (the exit call is
commented out), an undefined outcome modelled by none, rather than failing
with a QueueUnderflow error. -/
theorem queue_underflow_eval :
    GPUPopContextFromQueue [] = none ∧
    (CPUPopContextFromQueue [] [⟨7, 4⟩] 0).1 = .error := by
  decide

/-- C5: the default bridge path. If the source and destination byte sizes
differ, connect returns the error status and copies nothing (heap and used
list are returned unchanged); if they are equal it returns ok, the first
bytes-many words of the destination buffer equal the source buffer words,
and the source tensor and index are recorded on the used list. -/
theorem connect_size_check (h : HeapM) (s d : TensorRef) (sourceIdx : Nat)
    (used : List TensorAndIndex) :
    (s.bytes ≠ d.bytes → connect h s d sourceIdx used = (.error, h, used)) ∧
    (s.bytes = d.bytes →
      (connect h s d sourceIdx used).1 = .ok ∧
      (∀ i, i < s.bytes → (connect h s d sourceIdx used).2.1 d.ptr i = h s.ptr i) ∧
      (connect h s d sourceIdx used).2.2 = used ++ [⟨sourceIdx, s⟩]) := by
  constructor
  · intro hne
    simp [connect, hne]
  · intro heq
    have hc : ¬ s.bytes ≠ d.bytes := by simp [heq]
    simp only [connect, if_neg hc]
    refine ⟨by trivial, ?_, by trivial⟩
    intro i hi
    simp [memcpyHeap, hi]

/-- C5 witness: a concrete mismatching pair is rejected with no copy. -/
theorem connect_size_check_witness :
    (3 : Nat) ≠ 4 ∧
    connect (fun _ _ => 0) ⟨1, 3⟩ ⟨2, 4⟩ 5 [] = (.error, fun _ _ => 0, []) :=
  ⟨by decide, (connect_size_check (fun _ _ => 0) ⟨1, 3⟩ ⟨2, 4⟩ 5 []).1 (by decide)⟩

/-- C2 counterexample: the CPU-side continuation pop of the channel-split
hand-off does not copy; it installs the producing subgraph buffer pointer
(here 42) into the destination subgraph tensor store, so after the hand-off
a destination tensor shares its data buffer with the producing tensor,
contradicting the claimed no-aliasing invariant. -/
theorem handoff_no_alias_fails :
    ((CPUPopContextFromQueue [⟨.cpu0, ⟨42, 4⟩⟩] [⟨7, 4⟩] 0).2.1.getD 0 ⟨0, 0⟩).ptr = 42 ∧
    ¬ (∀ t ∈ (CPUPopContextFromQueue [⟨.cpu0, ⟨42, 4⟩⟩] [⟨7, 4⟩] 0).2.1,
        t.ptr ≠ 42) := by
  decide

/-- C2 amended: the default bridge copy does go into the destination-owned
buffer only (every buffer other than the destination one is untouched, so
connect introduces no aliasing), but the CPU-side continuation pop of the
channel-split path installs the producing tensor buffer pointer into the
destination tensor store, an aliasing hand-off rather than a copy. -/
theorem handoff_copy_and_alias (h : HeapM) (s d : TensorRef) (sourceIdx : Nat)
    (used : List TensorAndIndex) (tensors : List TensorRef) (outIdx : Nat)
    (sc : SharedContextM) (rest : List SharedContextM) :
    (s.bytes = d.bytes →
      (connect h s d sourceIdx used).1 = .ok ∧
      (∀ p i, p ≠ d.ptr → (connect h s d sourceIdx used).2.1 p i = h p i)) ∧
    (outIdx < tensors.length →
      ((CPUPopContextFromQueue (sc :: rest) tensors outIdx).2.1.getD outIdx
          ⟨0, 0⟩).ptr = sc.tensor.ptr) := by
  constructor
  · intro heq
    have hc : ¬ s.bytes ≠ d.bytes := by simp [heq]
    simp only [connect, if_neg hc]
    refine ⟨by trivial, ?_⟩
    intro p i hp
    simp [memcpyHeap, hp]
  · intro hlt
    simp only [CPUPopContextFromQueue]
    rw [getD_set_self]
    · exact hlt

/-- C2 witness: concrete instances for both conjuncts of the amended
statement. -/
theorem handoff_copy_and_alias_witness :
    (0 : Nat) < 1 ∧
    ((CPUPopContextFromQueue [⟨.cpu0, ⟨42, 4⟩⟩] [⟨7, 4⟩] 0).2.1.getD 0
      ⟨0, 0⟩).ptr = (⟨UnitTypeM.cpu0, ⟨42, 4⟩⟩ : SharedContextM).tensor.ptr :=
  ⟨by decide,
   (handoff_copy_and_alias (fun _ _ => 0) ⟨0, 0⟩ ⟨0, 0⟩ 0 [] [⟨7, 4⟩] 0
      ⟨UnitTypeM.cpu0, ⟨42, 4⟩⟩ []).2 (by decide)⟩

/-- C7 counterexample: a subgraph with a dynamic input tensor. The first
AllocateTensors call leaves it Invokable with non-persistent memory present
and nothing released, yet the second consecutive call takes the full path
again (the short-circuit requires no dynamic inputs) and re-runs memory
planning, contradicting the claim that the second call re-runs no planning. -/
theorem allocate_tensors_idempotence_fails :
    (AllocateTensors ⟨true, .uninvokable, true, true, false, 0⟩).1 = .ok ∧
    (AllocateTensors ⟨true, .uninvokable, true, true, false, 0⟩).2.state = .invokable ∧
    (AllocateTensors ⟨true, .uninvokable, true, true, false, 0⟩).2.hasNonPersistentMemory = true ∧
    (AllocateTensors (AllocateTensors ⟨true, .uninvokable, true, true, false, 0⟩).2).2.planCount ≠
      (AllocateTensors ⟨true, .uninvokable, true, true, false, 0⟩).2.planCount := by
  decide

/-- C7 amended: on a consistent subgraph none of whose input tensors is
dynamic, AllocateTensors is idempotent: when the state is already Invokable
and non-persistent memory was not released the call returns ok and changes
nothing (no planning, no allocation, the whole state including planCount is
unchanged), and after any successful call a second consecutive call returns
ok with the state unchanged. -/
theorem allocate_tensors_idempotent (sg : AllocSubgraph)
    (hc : sg.consistent = true) (hd : sg.dynamicInputs = false) :
    (sg.state = .invokable → sg.hasNonPersistentMemory = true →
      AllocateTensors sg = (.ok, sg)) ∧
    (∀ sg1, AllocateTensors sg = (.ok, sg1) → AllocateTensors sg1 = (.ok, sg1)) := by
  constructor
  · intro hs hm
    simp [AllocateTensors, hc, hd, hs, hm]
  · intro sg1 h1
    obtain ⟨c, st, dyn, pl, mem, n⟩ := sg
    simp only at hc hd
    subst hc
    subst hd
    cases st <;> cases pl <;> cases mem <;>
      simp [AllocateTensors] at h1 <;> subst h1 <;> simp [AllocateTensors]

/-- C7 witness: on a concrete Invokable subgraph with no dynamic inputs and
non-persistent memory present, AllocateTensors returns ok and is the
identity. -/
theorem allocate_tensors_idempotent_witness :
    (⟨true, .invokable, false, true, true, 5⟩ : AllocSubgraph).state = .invokable ∧
    AllocateTensors ⟨true, .invokable, false, true, true, 5⟩ =
      (.ok, ⟨true, .invokable, false, true, true, 5⟩) :=
  ⟨rfl, (allocate_tensors_idempotent ⟨true, .invokable, false, true, true, 5⟩
      rfl rfl).1 rfl rfl⟩

/-- C8: ResizeInputTensor on a call that passes the entry guard and the
bounds check. If the tensor data pointer is non-null and the requested dims
equal the current dims, the call returns ok and the subgraph is completely
unchanged (no state transition, no reallocation); every resize that does
mutate (different dims or a null data pointer) leaves the subgraph state at
Uninvokable. -/
theorem resize_input_tensor_fast_path (sg : RsSubgraph) (tensorIndex : Nat)
    (dims : List Int)
    (hguard : ¬(sg.state = .invokableAndImmutable ∧ sg.preDelegationPlan = []))
    (hidx : tensorIndex < sg.tensors.length) :
    ((sg.tensors.get ⟨tensorIndex, hidx⟩).dataRaw = true →
      (sg.tensors.get ⟨tensorIndex, hidx⟩).dims = dims →
      ResizeInputTensor sg tensorIndex dims = (.ok, sg)) ∧
    (¬((sg.tensors.get ⟨tensorIndex, hidx⟩).dataRaw = true ∧
        (sg.tensors.get ⟨tensorIndex, hidx⟩).dims = dims) →
      (ResizeInputTensor sg tensorIndex dims).2.state = .uninvokable) := by
  constructor
  · intro hraw hdims
    simp only [ResizeInputTensor, if_neg hguard, dif_pos hidx]
    rw [if_pos]
    exact ⟨hraw, hdims⟩
  · intro hslow
    simp only [ResizeInputTensor, if_neg hguard, dif_pos hidx]
    rw [if_neg (by simpa using hslow)]
    cases hR : ResizeTensorImpl (sg.tensors.get ⟨tensorIndex, hidx⟩) dims with
    | none => simp [hR]
    | some t2 => simp [hR]

lemma invokeLoop_cancel (cancelled : Nat → Bool) :
    ∀ (plan : List Nat) (base : Nat) (acc : List Nat) (k : Nat),
      k < plan.length → (∀ j, j < k → cancelled (base + j) = false) →
      cancelled (base + k) = true →
      invokeLoop cancelled plan base acc = (.error, acc ++ plan.take k) := by
  intro plan
  induction plan with
  | nil =>
    intro base acc k hk _ _
    exact absurd hk (by simp)
  | cons node rest ih =>
    intro base acc k hk hbefore hat
    cases k with
    | zero =>
      have h0 : cancelled base = true := by simpa using hat
      simp [invokeLoop, h0]
    | succ k2 =>
      have h0 : cancelled base = false := by
        have := hbefore 0 (Nat.succ_pos k2)
        simpa using this
      simp only [invokeLoop, h0, Bool.false_eq_true, if_false]
      rw [ih (base + 1) (acc ++ [node]) k2 (by simpa using hk)
          (fun j hj => by
            have := hbefore (j + 1) (by omega)
            rwa [show base + (j + 1) = base + 1 + j by omega] at this)
          (by rwa [show base + 1 + k2 = base + (k2 + 1) by omega])]
      simp

/-- C6 counterexample: a concrete invocation on a consistent, Invokable
subgraph with a cancellation predicate that becomes true at plan index 1.
The call returns the error status and halts after node 0 as claimed, but the
subgraph is not left Uninvokable: its state is untouched by the cancellation
return, contradicting the claimed transition to Uninvokable. -/
theorem invoke_cancellation_state_fails :
    (Invoke ⟨true, .invokable⟩ (fun k => decide (1 ≤ k)) [0, 1, 2]).status = .error ∧
    (Invoke ⟨true, .invokable⟩ (fun k => decide (1 ≤ k)) [0, 1, 2]).invokedNodes = [0] ∧
    ¬ ((Invoke ⟨true, .invokable⟩ (fun k => decide (1 ≤ k)) [0, 1, 2]).final.state =
        .uninvokable) := by
  decide

/-- C6 amended: on a consistent Invokable subgraph, if the cancellation
predicate is false before plan index k and true at k, Invoke halts exactly
at node k: the kernels invoked are precisely the first k plan entries (node
k and everything after it are not invoked), the status is the cancellation
error, and the subgraph state is unchanged (it stays Invokable rather than
becoming Uninvokable). -/
theorem invoke_cancellation_halts (sg : InvokeSubgraphState)
    (cancelled : Nat → Bool) (plan : List Nat) (k : Nat)
    (hc : sg.consistent = true) (hs : sg.state = .invokable)
    (hk : k < plan.length)
    (hbefore : ∀ j, j < k → cancelled j = false) (hat : cancelled k = true) :
    Invoke sg cancelled plan = ⟨.error, sg, plan.take k⟩ := by
  have hloop := invokeLoop_cancel cancelled plan 0 [] k hk
    (fun j hj => by simpa using hbefore j hj) (by simpa using hat)
  simp [Invoke, hc, hs, hloop]

/-- C6 witness: the amended statement at a concrete subgraph, plan and
predicate firing at index 1. -/
theorem invoke_cancellation_halts_witness :
    (1 : Nat) < 3 ∧
    Invoke ⟨true, .invokable⟩ (fun k => decide (1 ≤ k)) [5, 6, 7] =
      ⟨.error, ⟨true, .invokable⟩, [5]⟩ :=
  ⟨by decide,
   invoke_cancellation_halts ⟨true, .invokable⟩ (fun k => decide (1 ≤ k))
     [5, 6, 7] 1 rfl rfl (by decide)
     (fun j hj => by
       have hj0 : j = 0 := by omega
       subst hj0
       rfl)
     rfl⟩

lemma applySubset_preDelegationPlan (sg : DelegSubgraph) (claimed : Bool)
    (subsetNodes : List Nat) :
    (applySubset sg claimed subsetNodes).preDelegationPlan = sg.preDelegationPlan := by
  unfold applySubset
  split <;> rfl

lemma applySubset_nodes (sg : DelegSubgraph) (claimed : Bool)
    (subsetNodes : List Nat) :
    ∃ ext, (applySubset sg claimed subsetNodes).nodes = sg.nodes ++ ext := by
  unfold applySubset
  split
  · exact ⟨[sg.nodes.length], rfl⟩
  · exact ⟨[], by simp⟩

lemma replaceNodeSubsets_frame :
    ∀ (subsets : List (Bool × List Nat)) (failAt : Option Nat)
      (sg : DelegSubgraph),
      (replaceNodeSubsets sg subsets failAt).2.preDelegationPlan =
        sg.preDelegationPlan ∧
      ∃ ext, (replaceNodeSubsets sg subsets failAt).2.nodes = sg.nodes ++ ext := by
  intro subsets
  induction subsets with
  | nil =>
    intro failAt sg
    exact ⟨rfl, ⟨[], by simp [replaceNodeSubsets]⟩⟩
  | cons s rest ih =>
    intro failAt sg
    by_cases hf : failAt = some 0
    · refine ⟨?_, ⟨[], ?_⟩⟩ <;> simp [replaceNodeSubsets, hf]
    · simp only [replaceNodeSubsets, if_neg hf]
      obtain ⟨h1, ext, h2⟩ := ih (Option.map (fun k => k - 1) failAt)
        (applySubset sg s.1 s.2)
      obtain ⟨ext0, h3⟩ := applySubset_nodes sg s.1 s.2
      refine ⟨?_, ⟨ext0 ++ ext, ?_⟩⟩
      · rw [h1, applySubset_preDelegationPlan]
      · rw [h2, h3, List.append_assoc]

lemma replaceNodeSubsets_fail :
    ∀ (subsets : List (Bool × List Nat)) (k : Nat), k < subsets.length →
      ∀ sg, (replaceNodeSubsets sg subsets (some k)).1 = .error := by
  intro subsets
  induction subsets with
  | nil =>
    intro k hk
    exact absurd hk (by simp)
  | cons s rest ih =>
    intro k hk sg
    cases k with
    | zero => simp [replaceNodeSubsets]
    | succ k2 =>
      have hne : (some (k2 + 1) : Option Nat) ≠ some 0 := by simp
      simp only [replaceNodeSubsets, if_neg hne]
      have hmap : Option.map (fun k => k - 1) (some (k2 + 1)) = some k2 := by
        simp
      rw [hmap]
      exact ih k2 (by simpa using hk) _

lemma removeAllDelegates_restores (sg0 : DelegSubgraph) (plan nodes0 ext : List Nat)
    (hpre : sg0.preDelegationPlan = plan) (hplan : plan ≠ [])
    (hnodes : sg0.nodes = nodes0 ++ ext)
    (hlen : nodes0.length = maxNodeIndex plan + 1) :
    (RemoveAllDelegates sg0).executionPlan = plan ∧
    (RemoveAllDelegates sg0).nodes = nodes0 := by
  unfold RemoveAllDelegates UndoAllDelegates
  rw [hpre, if_neg hplan]
  refine ⟨rfl, ?_⟩
  rw [hnodes, ← hlen]
  exact List.take_left nodes0 ext

/-- C4: delegate rollback. When ModifyGraphWithDelegate is applied as the
first delegate to a mutable subgraph whose node list covers its execution
plan, and either the delegate Prepare fails at some subset (partway through
the independent node subsets) or the subsequent allocation fails, the call
reports the delegate error and the resulting subgraph has its
execution_plan_ restored to its exact pre-delegation contents (same list,
hence same length and ordering) and its node list restored to the original
nodes, with every appended delegate node removed: a full rollback. -/
theorem modify_graph_delegate_rollback (sg : DelegSubgraph) (d : DelegateM)
    (allocOk : Bool)
    (hstate : sg.state ≠ .invokableAndImmutable)
    (happlied : sg.delegatesApplied = 0)
    (hplan : sg.executionPlan ≠ [])
    (hnodes : sg.nodes.length = maxNodeIndex sg.executionPlan + 1)
    (hfail : (∃ k, d.failAt = some k ∧ k < d.subsets.length) ∨ allocOk = false) :
    (ModifyGraphWithDelegate sg d allocOk).1 = .delegateError ∧
    (ModifyGraphWithDelegate sg d allocOk).2.executionPlan = sg.executionPlan ∧
    (ModifyGraphWithDelegate sg d allocOk).2.nodes = sg.nodes := by
  have hinPre : (delegPrepareInput sg).preDelegationPlan = sg.executionPlan := by
    simp [delegPrepareInput, happlied]
  have hinNodes : (delegPrepareInput sg).nodes = sg.nodes := rfl
  obtain ⟨hpre, ext, hext⟩ :=
    replaceNodeSubsets_frame d.subsets d.failAt (delegPrepareInput sg)
  rw [hinPre] at hpre
  rw [hinNodes] at hext
  have hrestore :=
    removeAllDelegates_restores
      (replaceNodeSubsets (delegPrepareInput sg) d.subsets d.failAt).2
      sg.executionPlan sg.nodes ext hpre hplan hext hnodes
  unfold ModifyGraphWithDelegate
  rw [if_neg hstate]
  by_cases hok :
      (replaceNodeSubsets (delegPrepareInput sg) d.subsets d.failAt).1 = .ok
  · have hallocFalse : allocOk = false := by
      rcases hfail with ⟨k, hfk, hklt⟩ | hfalse
      · exfalso
        have herr := replaceNodeSubsets_fail d.subsets k hklt (delegPrepareInput sg)
        rw [← hfk] at herr
        rw [hok] at herr
        exact absurd herr (by decide)
      · exact hfalse
    rw [if_pos hok, hallocFalse]
    simp only [Bool.false_eq_true, if_false]
    exact ⟨by trivial, hrestore.1, hrestore.2⟩
  · rw [if_neg hok]
    exact ⟨by trivial, hrestore.1, hrestore.2⟩

/-- C4 witness: the scenario of the spec: a three-node plan, a delegate
claiming three independent subsets whose Prepare fails at the second one;
the plan and node list come back exactly as before delegation. -/
theorem modify_graph_delegate_rollback_witness :
    (⟨[10, 20, 30], [0, 1, 2], [], 0, false, .invokable⟩ : DelegSubgraph).executionPlan ≠ [] ∧
    (ModifyGraphWithDelegate ⟨[10, 20, 30], [0, 1, 2], [], 0, false, .invokable⟩
      ⟨[(true, [0]), (true, [1]), (true, [2])], some 1⟩ true).1 = .delegateError ∧
    (ModifyGraphWithDelegate ⟨[10, 20, 30], [0, 1, 2], [], 0, false, .invokable⟩
      ⟨[(true, [0]), (true, [1]), (true, [2])], some 1⟩ true).2.executionPlan = [0, 1, 2] ∧
    (ModifyGraphWithDelegate ⟨[10, 20, 30], [0, 1, 2], [], 0, false, .invokable⟩
      ⟨[(true, [0]), (true, [1]), (true, [2])], some 1⟩ true).2.nodes = [10, 20, 30] :=
  ⟨by decide,
   modify_graph_delegate_rollback ⟨[10, 20, 30], [0, 1, 2], [], 0, false, .invokable⟩
     ⟨[(true, [0]), (true, [1]), (true, [2])], some 1⟩ true (by decide) rfl
     (by decide) (by decide) (Or.inl ⟨1, rfl, by decide⟩)⟩

lemma le_rne (q : ℚ) : q - 1 / 2 ≤ (rne q : ℚ) := by
  unfold rne
  have h1 := Int.floor_le q
  have h2 := Int.lt_floor_add_one q
  split
  · linarith
  · split
    · push_cast
      linarith
    · split
      · linarith
      · push_cast
        linarith

lemma rne_le (q : ℚ) : (rne q : ℚ) ≤ q + 1 / 2 := by
  unfold rne
  have h1 := Int.floor_le q
  have h2 := Int.lt_floor_add_one q
  split
  · linarith
  · split
    · push_cast
      linarith
    · split
      · linarith
      · push_cast
        linarith

lemma rne_nonneg (q : ℚ) (h : 0 ≤ q) : 0 ≤ rne q := by
  have hf : 0 ≤ ⌊q⌋ := Int.floor_nonneg.mpr h
  unfold rne
  split
  · exact hf
  · split
    · omega
    · split
      · exact hf
      · omega

lemma roundFloat32_zero : roundFloat32 0 = 0 := by
  rw [roundFloat32, if_neg (lt_irrefl 0), if_neg (lt_irrefl 0)]

lemma roundFloat32_nonneg (x : ℚ) (h : 0 ≤ x) : 0 ≤ roundFloat32 x := by
  rcases eq_or_lt_of_le h with heq | hlt
  · rw [← heq, roundFloat32_zero]
  · rw [roundFloat32, if_pos hlt]
    have hulp : (0 : ℚ) < 2 ^ (Int.log 2 x - 23) := by positivity
    have hq : 0 ≤ x / 2 ^ (Int.log 2 x - 23) := le_of_lt (div_pos hlt hulp)
    have hr := rne_nonneg _ hq
    have hrq : (0 : ℚ) ≤ (rne (x / 2 ^ (Int.log 2 x - 23)) : ℚ) := by
      exact_mod_cast hr
    exact mul_nonneg hrq (le_of_lt hulp)

lemma ulp_le (x : ℚ) (hx : 0 < x) :
    (2 : ℚ) ^ (Int.log 2 x - 23) ≤ x / 8388608 := by
  have h2e : (2 : ℚ) ^ Int.log 2 x ≤ x := Int.zpow_log_le_self (by norm_num) hx
  rw [zpow_sub₀ (by norm_num : (2 : ℚ) ≠ 0)]
  have h23 : ((2 : ℚ) ^ (23 : ℤ)) = 8388608 := by norm_num
  rw [h23]
  exact div_le_div_of_nonneg_right h2e (by norm_num)

lemma roundFloat32_le (x : ℚ) (hx : 0 < x) :
    roundFloat32 x ≤ x + x / 16777216 := by
  rw [roundFloat32, if_pos hx]
  have hulp : (0 : ℚ) < 2 ^ (Int.log 2 x - 23) := by positivity
  have hb := rne_le (x / 2 ^ (Int.log 2 x - 23))
  have h3 : (rne (x / 2 ^ (Int.log 2 x - 23)) : ℚ) * 2 ^ (Int.log 2 x - 23) ≤
      (x / 2 ^ (Int.log 2 x - 23) + 1 / 2) * 2 ^ (Int.log 2 x - 23) :=
    mul_le_mul_of_nonneg_right hb (le_of_lt hulp)
  rw [add_mul, div_mul_cancel₀ _ (ne_of_gt hulp)] at h3
  have h4 := ulp_le x hx
  calc (rne (x / 2 ^ (Int.log 2 x - 23)) : ℚ) * 2 ^ (Int.log 2 x - 23)
      ≤ x + 1 / 2 * 2 ^ (Int.log 2 x - 23) := h3
    _ ≤ x + 1 / 2 * (x / 8388608) := by linarith
    _ = x + x / 16777216 := by ring

lemma le_roundFloat32 (x : ℚ) (hx : 0 < x) :
    x - x / 16777216 ≤ roundFloat32 x := by
  rw [roundFloat32, if_pos hx]
  have hulp : (0 : ℚ) < 2 ^ (Int.log 2 x - 23) := by positivity
  have hb := le_rne (x / 2 ^ (Int.log 2 x - 23))
  have h3 : (x / 2 ^ (Int.log 2 x - 23) - 1 / 2) * 2 ^ (Int.log 2 x - 23) ≤
      (rne (x / 2 ^ (Int.log 2 x - 23)) : ℚ) * 2 ^ (Int.log 2 x - 23) :=
    mul_le_mul_of_nonneg_right hb (le_of_lt hulp)
  rw [sub_mul, div_mul_cancel₀ _ (ne_of_gt hulp)] at h3
  have h4 := ulp_le x hx
  calc x - x / 16777216
      = x - 1 / 2 * (x / 8388608) := by ring
    _ ≤ x - 1 / 2 * 2 ^ (Int.log 2 x - 23) := by linarith
    _ ≤ (rne (x / 2 ^ (Int.log 2 x - 23)) : ℚ) * 2 ^ (Int.log 2 x - 23) := by
        linarith

lemma roundFloat32_pos (x : ℚ) (hx : 0 < x) : 0 < roundFloat32 x := by
  have h := le_roundFloat32 x hx
  have hgt : (0 : ℚ) < x - x / 16777216 := by linarith
  linarith

lemma modifiedChannelValue_bounds (r m : Int)
    (hr1 : 1 ≤ r) (hr9 : r ≤ 9) (hm : 0 ≤ m) :
    0 ≤ modifiedChannelValue m r ∧ modifiedChannelValue m r ≤ m := by
  have hrqpos : (0 : ℚ) < (r : ℚ) := by exact_mod_cast hr1
  have hrq9 : ((r : ℚ)) ≤ 9 := by exact_mod_cast hr9
  have hrfpos : 0 < floatOfInt r := roundFloat32_pos _ hrqpos
  have hrfu : floatOfInt r ≤ (r : ℚ) + (r : ℚ) / 16777216 :=
    roundFloat32_le _ hrqpos
  have hdpos : (0 : ℚ) < floatOfInt r / 10 := by positivity
  have hqpos : 0 < roundFloat32 (floatOfInt r / 10) := roundFloat32_pos _ hdpos
  have hqu : roundFloat32 (floatOfInt r / 10) ≤
      floatOfInt r / 10 + (floatOfInt r / 10) / 16777216 :=
    roundFloat32_le _ hdpos
  rcases eq_or_lt_of_le hm with hm0 | hmpos
  · have hmz : (m : ℚ) = 0 := by exact_mod_cast hm0.symm
    constructor <;>
      simp [modifiedChannelValue, floatOfInt, hmz, roundFloat32_zero, ← hm0]
  · have hmqpos : (0 : ℚ) < (m : ℚ) := by exact_mod_cast hmpos
    have hmq0 : (0 : ℚ) ≤ (m : ℚ) := le_of_lt hmqpos
    have hapos : 0 < floatOfInt m := roundFloat32_pos _ hmqpos
    have hau : floatOfInt m ≤ (m : ℚ) + (m : ℚ) / 16777216 :=
      roundFloat32_le _ hmqpos
    have haqpos : 0 < floatOfInt m * roundFloat32 (floatOfInt r / 10) :=
      mul_pos hapos hqpos
    have hxu : roundFloat32 (floatOfInt m * roundFloat32 (floatOfInt r / 10)) ≤
        floatOfInt m * roundFloat32 (floatOfInt r / 10) +
          (floatOfInt m * roundFloat32 (floatOfInt r / 10)) / 16777216 :=
      roundFloat32_le _ haqpos
    have hx0 : 0 ≤ roundFloat32 (floatOfInt m * roundFloat32 (floatOfInt r / 10)) :=
      roundFloat32_nonneg _ (le_of_lt haqpos)
    constructor
    · exact Int.ceil_nonneg hx0
    · rw [modifiedChannelValue, Int.ceil_le]
      have hq2 : roundFloat32 (floatOfInt r / 10) ≤
          (9 / 10 : ℚ) * (1 + 1 / 16777216) ^ 2 := by
        have hrf9 : floatOfInt r ≤ 9 * (1 + 1 / 16777216) := by
          have : (r : ℚ) + (r : ℚ) / 16777216 ≤ 9 + 9 / 16777216 := by linarith
          linarith
        calc roundFloat32 (floatOfInt r / 10)
            ≤ floatOfInt r / 10 + (floatOfInt r / 10) / 16777216 := hqu
          _ = (floatOfInt r / 10) * (1 + 1 / 16777216) := by ring
          _ ≤ (9 * (1 + 1 / 16777216) / 10) * (1 + 1 / 16777216) := by
              have h10 : floatOfInt r / 10 ≤ 9 * (1 + 1 / 16777216) / 10 := by
                linarith
              nlinarith
          _ = (9 / 10 : ℚ) * (1 + 1 / 16777216) ^ 2 := by ring
      have hau2 : floatOfInt m ≤ (m : ℚ) * (1 + 1 / 16777216) := by
        have heq2 : (m : ℚ) + (m : ℚ) / 16777216 =
            (m : ℚ) * (1 + 1 / 16777216) := by ring
        linarith
      have haq2 : floatOfInt m * roundFloat32 (floatOfInt r / 10) ≤
          ((m : ℚ) * (1 + 1 / 16777216)) *
            ((9 / 10) * (1 + 1 / 16777216) ^ 2) := by
        apply mul_le_mul hau2 hq2 (le_of_lt hqpos)
        positivity
      calc roundFloat32 (floatOfInt m * roundFloat32 (floatOfInt r / 10))
          ≤ (floatOfInt m * roundFloat32 (floatOfInt r / 10)) *
              (1 + 1 / 16777216) := by
            have heq3 : floatOfInt m * roundFloat32 (floatOfInt r / 10) +
                (floatOfInt m * roundFloat32 (floatOfInt r / 10)) / 16777216 =
                (floatOfInt m * roundFloat32 (floatOfInt r / 10)) *
                  (1 + 1 / 16777216) := by ring
            linarith
        _ ≤ (((m : ℚ) * (1 + 1 / 16777216)) *
              ((9 / 10) * (1 + 1 / 16777216) ^ 2)) * (1 + 1 / 16777216) :=
            mul_le_mul_of_nonneg_right haq2 (by norm_num)
        _ = (m : ℚ) * ((9 / 10) * (1 + 1 / 16777216) ^ 4) := by ring
        _ ≤ (m : ℚ) * 1 := by
            apply mul_le_mul_of_nonneg_left _ hmq0
            norm_num
        _ = (m : ℚ) := mul_one _

lemma Int_log_eq (x : ℚ) (e : ℤ) (h1 : (2 : ℚ) ^ e ≤ x)
    (h2 : x < (2 : ℚ) ^ (e + 1)) : Int.log 2 x = e := by
  have hx : 0 < x := lt_of_lt_of_le (by positivity) h1
  have hcast : ((2 : ℕ) : ℚ) = (2 : ℚ) := by norm_num
  have ha : e ≤ Int.log 2 x := by
    rw [← Int.zpow_le_iff_le_log (by norm_num) hx, hcast]
    exact h1
  have hb : Int.log 2 x < e + 1 := by
    rw [← Int.lt_zpow_iff_log_lt (by norm_num) hx, hcast]
    exact h2
  omega

lemma roundFloat32_eval (x : ℚ) (e k : ℤ)
    (h1 : (2 : ℚ) ^ e ≤ x) (h2 : x < (2 : ℚ) ^ (e + 1))
    (hk : rne (x / 2 ^ (e - 23)) = k) :
    roundFloat32 x = k * 2 ^ (e - 23) := by
  have hx : 0 < x := lt_of_lt_of_le (by positivity) h1
  rw [roundFloat32, if_pos hx, Int_log_eq x e h1 h2, hk]

lemma rne_eval_lt (q : ℚ) (f : ℤ) (h1 : (f : ℚ) ≤ q) (h2 : q < f + 1 / 2) :
    rne q = f := by
  have hf : ⌊q⌋ = f := Int.floor_eq_iff.mpr ⟨h1, by linarith⟩
  rw [rne, hf, if_pos (by linarith)]

lemma rne_eval_gt (q : ℚ) (f : ℤ) (h1 : (f : ℚ) + 1 / 2 < q) (h2 : q < f + 1) :
    rne q = f + 1 := by
  have hf : ⌊q⌋ = f := Int.floor_eq_iff.mpr ⟨by linarith, h2⟩
  rw [rne, hf, if_neg (by linarith), if_pos (by linarith)]

lemma floatOfInt_3 : floatOfInt 3 = 3 := by
  have harg : (((3 : ℤ) : ℚ)) / 2 ^ ((1 : ℤ) - 23) = 12582912 := by norm_num
  have hk : rne ((((3 : ℤ) : ℚ)) / 2 ^ ((1 : ℤ) - 23)) = 12582912 := by
    rw [harg]
    exact rne_eval_lt _ 12582912 (by norm_num) (by norm_num)
  have h := roundFloat32_eval ((3 : ℤ) : ℚ) 1 12582912 (by norm_num)
    (by norm_num) hk
  rw [floatOfInt, h]
  norm_num

lemma floatOfInt_50 : floatOfInt 50 = 50 := by
  have harg : (((50 : ℤ) : ℚ)) / 2 ^ ((5 : ℤ) - 23) = 13107200 := by norm_num
  have hk : rne ((((50 : ℤ) : ℚ)) / 2 ^ ((5 : ℤ) - 23)) = 13107200 := by
    rw [harg]
    exact rne_eval_lt _ 13107200 (by norm_num) (by norm_num)
  have h := roundFloat32_eval ((50 : ℤ) : ℚ) 5 13107200 (by norm_num)
    (by norm_num) hk
  rw [floatOfInt, h]
  norm_num

lemma roundFloat32_three_tenths :
    roundFloat32 ((3 : ℚ) / 10) = 10066330 * 2 ^ ((-2 : ℤ) - 23) := by
  have harg : ((3 : ℚ) / 10) / 2 ^ ((-2 : ℤ) - 23) = 50331648 / 5 := by norm_num
  have hk : rne (((3 : ℚ) / 10) / 2 ^ ((-2 : ℤ) - 23)) = 10066330 := by
    rw [harg]
    have h10 := rne_eval_gt (50331648 / 5) 10066329 (by norm_num) (by norm_num)
    rw [h10]
    norm_num
  exact roundFloat32_eval ((3 : ℚ) / 10) (-2) 10066330 (by norm_num)
    (by norm_num) hk

lemma mv_50_3 : modifiedChannelValue 50 3 = 16 := by
  rw [modifiedChannelValue, floatOfInt_3, floatOfInt_50, roundFloat32_three_tenths]
  have hprod : (50 : ℚ) * (10066330 * 2 ^ ((-2 : ℤ) - 23)) =
      125829125 * 2 ^ ((-23 : ℤ)) := by
    norm_num
  rw [hprod]
  have harg : ((125829125 : ℚ) * 2 ^ ((-23 : ℤ))) / 2 ^ ((3 : ℤ) - 23) =
      125829125 / 8 := by norm_num
  have hk : rne (((125829125 : ℚ) * 2 ^ ((-23 : ℤ))) / 2 ^ ((3 : ℤ) - 23)) =
      15728641 := by
    rw [harg]
    have h15 := rne_eval_gt ((125829125 : ℚ) / 8) 15728640 (by norm_num)
      (by norm_num)
    rw [h15]
    norm_num
  have hx := roundFloat32_eval ((125829125 : ℚ) * 2 ^ ((-23 : ℤ))) 3 15728641
    (by norm_num) (by norm_num) hk
  rw [hx]
  rw [Int.ceil_eq_iff]
  constructor <;> norm_num

lemma ceil_150_10 : ⌈((50 * 3 : Int) : ℚ) / 10⌉ = 15 := by
  rw [Int.ceil_eq_iff]
  constructor <;> norm_num

/-- C9 counterexample: the channel-ratio rewrite at ratio 3 on a convolution
with 50 output channels. The source computes
ceil(50 * ((float)3 / 10)) in single precision: the float value of 3/10 is
slightly above 3/10, the float product is slightly above 15, and the
ceiling is 16 - not ceil(50 * 3 / 10) = 15 as the claim states. The conv
filter is shrunk to 16 channels and the following concatenation gains the
complement 34. -/
theorem channel_ratio_ceiling_fails :
    channelRatioRewrite 3 [⟨.conv, 50⟩, ⟨.concat, 0⟩] 0 =
      some [⟨.conv, 16⟩, ⟨.concat, 34⟩] ∧
    (16 : Int) ≠ ⌈((50 * 3 : Int) : ℚ) / 10⌉ := by
  constructor
  · have hnot : ¬ (50 : Int) ≤ 0 := by norm_num
    simp [channelRatioRewrite, hnot, mv_50_3]
  · rw [ceil_150_10]
    omega

/-- C9 amended: the channel-ratio rewrite on a convolution with n output
channels followed by its concatenation node, for any ratio 1 ≤ r ≤ 9. The
conv filter channel count becomes modifiedChannelValue n r, the
single-precision evaluation of ceil(n * r / 10) (which can exceed the exact
ceiling, as at n = 50, r = 3); the concatenation filter grows by the
complementary count n - modifiedChannelValue n r; and for every channel
count m ≥ 0 and valid r both the modified value and its complement are
nonnegative. -/
theorem channel_ratio_arithmetic (r n d : Int)
    (hr1 : 1 ≤ r) (hr9 : r ≤ 9) (hn : 1 ≤ n) :
    channelRatioRewrite r [⟨.conv, n⟩, ⟨.concat, d⟩] 0 =
      some [⟨.conv, modifiedChannelValue n r⟩,
            ⟨.concat, d + (n - modifiedChannelValue n r)⟩] ∧
    (∀ m : Int, 0 ≤ m →
      0 ≤ modifiedChannelValue m r ∧ modifiedChannelValue m r ≤ m) := by
  constructor
  · have hnot : ¬ n ≤ 0 := by omega
    simp [channelRatioRewrite, hnot]
  · intro m hm
    exact modifiedChannelValue_bounds r m hr1 hr9 hm

/-- C9 witness: ratio 3 on a convolution with 7 output channels: the conv
filter becomes modifiedChannelValue 7 3 channels and the concatenation gains
the complement. -/
theorem channel_ratio_arithmetic_witness :
    (1 : Int) ≤ 7 ∧
    channelRatioRewrite 3 [⟨.conv, 7⟩, ⟨.concat, 0⟩] 0 =
      some [⟨.conv, modifiedChannelValue 7 3⟩,
            ⟨.concat, 0 + (7 - modifiedChannelValue 7 3)⟩] :=
  ⟨by norm_num, (channel_ratio_arithmetic 3 7 0 (by norm_num) (by norm_num)
    (by norm_num)).1⟩

/-- C8 witness: a concrete no-op resize (same dims, data present) is the
identity with ok, and a genuine resize forces Uninvokable. -/
theorem resize_input_tensor_fast_path_witness :
    ((⟨[⟨[1, 2], 4, 8, true, .arenaRw⟩], .invokable, []⟩ : RsSubgraph).tensors.get
        ⟨0, by decide⟩).dims = [1, 2] ∧
    ResizeInputTensor ⟨[⟨[1, 2], 4, 8, true, .arenaRw⟩], .invokable, []⟩ 0 [1, 2] =
      (.ok, ⟨[⟨[1, 2], 4, 8, true, .arenaRw⟩], .invokable, []⟩) ∧
    (ResizeInputTensor ⟨[⟨[1, 2], 4, 8, true, .arenaRw⟩], .invokable, []⟩ 0
        [1, 3]).2.state = .uninvokable :=
  ⟨by decide,
   (resize_input_tensor_fast_path ⟨[⟨[1, 2], 4, 8, true, .arenaRw⟩], .invokable, []⟩
      0 [1, 2] (by decide) (by decide)).1 (by decide) (by decide),
   (resize_input_tensor_fast_path ⟨[⟨[1, 2], 4, 8, true, .arenaRw⟩], .invokable, []⟩
      0 [1, 3] (by decide) (by decide)).2 (by decide)⟩

lemma concatCopyLoop_layout (src dst : Int → Int) (chSt chSize sdCh : Int)
    (h0 : 0 ≤ sdCh) (hle : sdCh ≤ chSize) :
    ∀ per : Nat,
      (∀ n : Nat, n < per → ∀ j : Int, 0 ≤ j → j < sdCh →
        concatCopyLoop src chSt chSize sdCh per dst (chSt + n * chSize + j) =
          src (n * sdCh + j)) ∧
      (∀ i : Int,
        (∀ n : Nat, n < per → ∀ j : Int, 0 ≤ j → j < sdCh →
          i ≠ chSt + n * chSize + j) →
        concatCopyLoop src chSt chSize sdCh per dst i = dst i) := by
  have hch : (0 : Int) ≤ chSize := le_trans h0 hle
  intro per
  induction per with
  | zero =>
    constructor
    · intro n hn
      exact absurd hn (by omega)
    · intro i _
      rfl
  | succ p ih =>
    constructor
    · intro n hn j hj0 hjlt
      rcases Nat.lt_succ_iff_lt_or_eq.mp hn with hlt | heq
      · have hmul : ((n : Int) + 1) * chSize ≤ (p : Int) * chSize := by
          apply mul_le_mul_of_nonneg_right _ hch
          exact_mod_cast hlt
        have hout : ¬ (chSt + (p : Int) * chSize ≤ chSt + (n : Int) * chSize + j ∧
            chSt + (n : Int) * chSize + j < chSt + (p : Int) * chSize + sdCh) := by
          intro hcontra
          nlinarith [hcontra.1]
        show memcpyFloats (concatCopyLoop src chSt chSize sdCh p dst)
          (chSt + (p : Int) * chSize) src ((p : Int) * sdCh) sdCh
          (chSt + (n : Int) * chSize + j) = src ((n : Int) * sdCh + j)
        unfold memcpyFloats
        rw [if_neg hout]
        exact ih.1 n hlt j hj0 hjlt
      · subst heq
        show memcpyFloats (concatCopyLoop src chSt chSize sdCh n dst)
          (chSt + (n : Int) * chSize) src ((n : Int) * sdCh) sdCh
          (chSt + (n : Int) * chSize + j) = src ((n : Int) * sdCh + j)
        unfold memcpyFloats
        rw [if_pos ⟨by linarith, by linarith⟩]
        congr 1
        ring
    · intro i havoid
      show memcpyFloats (concatCopyLoop src chSt chSize sdCh p dst)
        (chSt + (p : Int) * chSize) src ((p : Int) * sdCh) sdCh i = dst i
      unfold memcpyFloats
      by_cases hc : chSt + (p : Int) * chSize ≤ i ∧ i < chSt + (p : Int) * chSize + sdCh
      · exfalso
        have hj := havoid p (Nat.lt_succ_self p) (i - (chSt + (p : Int) * chSize))
          (by linarith [hc.1]) (by linarith [hc.2])
        apply hj
        ring
      · rw [if_neg hc]
        exact ih.2 i (fun n hn j hj0 hjlt => havoid n (Nat.lt_succ_of_lt hn) j hj0 hjlt)

/-- C1 counterexample: a concrete channel-split merge with CPU channel count
c1 = 1, GPU channel count c2 = 2, total C = 3, one spatial position, the
receiving tensor all zeros, every CPU slice word equal to 5, and the concat
filter channel count 2 (so the copy offset C - filter = 1 equals the c1
claimed by the spec). The claim as stated says the destination bytes on the
pattern from offset c1 = 1 with length c2 = 2 all equal CPU slice bytes, so
in particular offset 2 should hold 5; the code copies only sd-channel-many
(that is c1 = 1) words per position, leaving offset 2 unchanged at 0. -/
theorem concat_merge_claimed_pattern_fails :
    ¬ (∀ j : Int, 0 ≤ j → j < 2 →
        ConcatContext [1, 1, 1, 3] (fun _ => 0) [1, 1, 1, 1] (fun _ => 5) 2
          (1 + j) = 5) := by
  intro hclaim
  have h2 := hclaim 1 (by norm_num) (by norm_num)
  norm_num at h2
  exact absurd h2 (by decide)

/-- C1 amended: the channel-split merge writes, for every spatial position n,
the destination words on the offset pattern from (C - concatFilter) + n * C
of length c1 (the sending CPU slice channel count, not the GPU channel
count), filling them with the CPU slice words of position n; every
destination word outside that strided pattern is unchanged. The offset is
total channel count minus the concat filter channel count, which equals the
GPU channel count when the filter records the CPU complement, and the whole
copy is strided with period C, never one flat contiguous copy. -/
theorem concat_merge_strided_layout (rcDims sdDims : List Int)
    (rcData sdData : Int → Int) (concatFilter : Int) (C c1 : Int)
    (hC : rcDims.getD (rcDims.length - 1) 0 = C)
    (hc1 : sdDims.getD (sdDims.length - 1) 0 = c1)
    (h0 : 0 ≤ c1) (hle : c1 ≤ C) :
    (∀ n : Nat, n < (intProd rcDims / C).toNat →
      ∀ j : Int, 0 ≤ j → j < c1 →
        ConcatContext rcDims rcData sdDims sdData concatFilter
          ((C - concatFilter) + n * C + j) = sdData (n * c1 + j)) ∧
    (∀ i : Int,
      (∀ n : Nat, n < (intProd rcDims / C).toNat →
        ∀ j : Int, 0 ≤ j → j < c1 → i ≠ (C - concatFilter) + n * C + j) →
      ConcatContext rcDims rcData sdDims sdData concatFilter i = rcData i) := by
  have hkey : rcDims.getD (rcDims.length - 1) 0 - concatFilter + concatFilter = C := by
    rw [hC]
    ring
  unfold ConcatContext
  rw [hkey, hC, hc1]
  exact concatCopyLoop_layout sdData rcData (C - concatFilter) C c1 h0 hle
    ((intProd rcDims / C).toNat)

/-- C1 witness: a merge with C = 3 total channels, CPU slice channel count 1,
concat filter 1 (copy offset 2), two spatial positions: the word written for
spatial position 1 is CPU slice word 1, and an untouched offset keeps its
destination value. -/
theorem concat_merge_strided_layout_witness :
    (0 : Int) ≤ 1 ∧
    ConcatContext [1, 1, 2, 3] (fun _ => 0) [1, 1, 2, 1] (fun i => 100 + i) 1
      ((3 - 1) + ((1 : Nat) : Int) * 3 + 0) =
      (fun i : Int => 100 + i) (((1 : Nat) : Int) * 1 + 0) :=
  ⟨by norm_num,
   (concat_merge_strided_layout [1, 1, 2, 3] [1, 1, 2, 1] (fun _ => 0)
      (fun i => 100 + i) 1 3 1 (by decide) (by decide) (by decide) (by decide)).1
     1 (by decide) 0 (by decide) (by decide)⟩

lemma connectAddInner_length (inp : Nat) :
    ∀ (us : List TensorAndIndex) (acc : List TensorRef × HeapM),
      (connectAddInner inp us acc).1.length = acc.1.length := by
  intro us
  induction us with
  | nil =>
    intro acc
    rfl
  | cons u rest ih =>
    intro acc
    by_cases hu : u.idx = inp
    · simp only [connectAddInner, if_pos hu]
      rw [ih]
      simp [SwitchTensor]
    · simp only [connectAddInner, if_neg hu]
      exact ih acc

lemma connectAddInner_preserve (inp i : Nat) (u : TensorAndIndex) :
    ∀ (us : List TensorAndIndex) (acc : List TensorRef × HeapM),
      (∀ v ∈ us, v.idx = i → v.tensor = u.tensor) →
      acc.1.getD i ⟨0, 0⟩ = u.tensor →
      (connectAddInner inp us acc).1.getD i ⟨0, 0⟩ = u.tensor := by
  intro us
  induction us with
  | nil =>
    intro acc _ hacc
    exact hacc
  | cons v rest ih =>
    intro acc hall hacc
    by_cases hv : v.idx = inp
    · simp only [connectAddInner, if_pos hv]
      apply ih _ (fun w hw => hall w (List.mem_cons_of_mem v hw))
      by_cases hinp : inp = i
      · subst hinp
        by_cases hlen : inp < acc.1.length
        · rw [SwitchTensor, getD_set_self acc.1 v.tensor inp hlen]
          exact hall v (List.mem_cons_self v rest) hv
        · rw [SwitchTensor, List.set_eq_of_length_le (by omega)]
          exact hacc
      · rw [SwitchTensor, getD_set_ne acc.1 v.tensor inp i hinp]
        exact hacc
    · simp only [connectAddInner, if_neg hv]
      exact ih acc (fun w hw => hall w (List.mem_cons_of_mem v hw)) hacc

lemma connectAddInner_establish (i : Nat) (u : TensorAndIndex) :
    ∀ (us : List TensorAndIndex) (acc : List TensorRef × HeapM),
      u ∈ us → u.idx = i →
      (∀ v ∈ us, v.idx = i → v.tensor = u.tensor) →
      i < acc.1.length →
      (connectAddInner i us acc).1.getD i ⟨0, 0⟩ = u.tensor := by
  intro us
  induction us with
  | nil =>
    intro acc hmem
    exact absurd hmem (by simp)
  | cons v rest ih =>
    intro acc hmem huidx hall hlen
    by_cases hv : v.idx = i
    · simp only [connectAddInner, if_pos hv]
      apply connectAddInner_preserve i i u rest _
        (fun w hw => hall w (List.mem_cons_of_mem v hw))
      rw [SwitchTensor, getD_set_self acc.1 v.tensor i hlen]
      exact hall v (List.mem_cons_self v rest) hv
    · have hurest : u ∈ rest := by
        rcases List.mem_cons.mp hmem with heq | hr
        · exact absurd (heq ▸ huidx) hv
        · exact hr
      simp only [connectAddInner, if_neg hv]
      exact ih acc hurest huidx (fun w hw => hall w (List.mem_cons_of_mem v hw)) hlen

lemma connectAddOuter_preserve (i : Nat) (u : TensorAndIndex)
    (used : List TensorAndIndex)
    (hall : ∀ v ∈ used, v.idx = i → v.tensor = u.tensor) :
    ∀ (inputs : List Nat) (acc : List TensorRef × HeapM),
      acc.1.getD i ⟨0, 0⟩ = u.tensor →
      (connectAddOuter used inputs acc).1.getD i ⟨0, 0⟩ = u.tensor := by
  intro inputs
  induction inputs with
  | nil =>
    intro acc hacc
    exact hacc
  | cons inp rest ih =>
    intro acc hacc
    exact ih _ (connectAddInner_preserve inp i u used acc hall hacc)

lemma connectAddOuter_length (used : List TensorAndIndex) :
    ∀ (inputs : List Nat) (acc : List TensorRef × HeapM),
      (connectAddOuter used inputs acc).1.length = acc.1.length := by
  intro inputs
  induction inputs with
  | nil =>
    intro acc
    rfl
  | cons inp rest ih =>
    intro acc
    rw [connectAddOuter]
    rw [ih, connectAddInner_length]

lemma connectAddOuter_establish (i : Nat) (u : TensorAndIndex)
    (used : List TensorAndIndex)
    (hu : u ∈ used) (hidx : u.idx = i)
    (hall : ∀ v ∈ used, v.idx = i → v.tensor = u.tensor) :
    ∀ (inputs : List Nat) (acc : List TensorRef × HeapM),
      i ∈ inputs → i < acc.1.length →
      (connectAddOuter used inputs acc).1.getD i ⟨0, 0⟩ = u.tensor := by
  intro inputs
  induction inputs with
  | nil =>
    intro acc hmem
    exact absurd hmem (by simp)
  | cons inp rest ih =>
    intro acc hmem hlen
    rcases List.mem_cons.mp hmem with heq | hr
    · subst heq
      rw [connectAddOuter]
      exact connectAddOuter_preserve i u used hall rest _
        (connectAddInner_establish i u used acc hu hidx hall hlen)
    · rw [connectAddOuter]
      apply ih _ hr
      rw [connectAddInner_length]
      exact hlen

/-- C10: the additive-merge bridge path. The path is selected exactly when
the first operator of the destination subgraph is the elementwise ADD;
connectAdd fails with the insufficient-operands error, mutating nothing,
whenever fewer than two destination inputs or fewer than two recorded used
tensors exist; and with enough candidates it returns ok and, for every
destination input index matched by a recorded used tensor (the match being
unique for that index), the destination tensor store at that index ends up
holding exactly that used tensor, so the destination slot carries that
specific tensor bytes. -/
theorem connect_add_selection_and_copy (destTensors : List TensorRef)
    (h : HeapM) (inputs : List Nat) (used : List TensorAndIndex)
    (destOps : List String) :
    (chooseBridgePath destOps = .addConnect ↔ GetFirstOpName destOps = "ADD") ∧
    (inputs.length < 2 ∨ used.length < 2 →
      connectAdd destTensors h inputs used = (.error, destTensors, h)) ∧
    (2 ≤ inputs.length → 2 ≤ used.length →
      (connectAdd destTensors h inputs used).1 = .ok ∧
      ∀ i u, i ∈ inputs → u ∈ used → u.idx = i →
        (∀ v ∈ used, v.idx = i → v.tensor = u.tensor) →
        i < destTensors.length →
        (connectAdd destTensors h inputs used).2.1.getD i ⟨0, 0⟩ = u.tensor) := by
  refine ⟨?_, ?_, ?_⟩
  · by_cases hadd : GetFirstOpName destOps = "ADD" <;>
      simp [chooseBridgePath, hadd]
  · intro hins
    simp [connectAdd, hins]
  · intro h2i h2u
    have hcond : ¬ (inputs.length < 2 ∨ used.length < 2) := by omega
    constructor
    · simp [connectAdd, hcond]
    · intro i u hi hu hidx hall hlen
      simp only [connectAdd, if_neg hcond]
      exact connectAddOuter_establish i u used hu hidx hall inputs
        (destTensors, h) hi hlen

/-- C10 witness: two destination inputs 0 and 1 with two recorded used
tensors of matching indices; slot 0 of the destination store ends up holding
the used tensor recorded for index 0. -/
theorem connect_add_selection_and_copy_witness :
    (2 : Nat) ≤ 2 ∧
    (connectAdd [⟨7, 8⟩, ⟨9, 8⟩] (fun _ _ => 0) [0, 1]
        [⟨0, ⟨42, 8⟩⟩, ⟨1, ⟨43, 8⟩⟩]).2.1.getD 0 ⟨0, 0⟩ =
      (⟨0, ⟨42, 8⟩⟩ : TensorAndIndex).tensor :=
  ⟨by decide,
   ((connect_add_selection_and_copy [⟨7, 8⟩, ⟨9, 8⟩] (fun _ _ => 0) [0, 1]
        [⟨0, ⟨42, 8⟩⟩, ⟨1, ⟨43, 8⟩⟩] []).2.2 (by decide) (by decide)).2
     0 ⟨0, ⟨42, 8⟩⟩ (by decide) (by decide) rfl (by decide) (by decide)⟩

end FBF
